import Mathlib

/-!
Verification of the proluofire-im channel plugin (message gateway).

The TypeScript sources are shallowly embedded: strings are Lean `String`
(with the character-list core used for the normalization functions),
JavaScript numbers that hold message counts, sizes and epoch-millisecond
timestamps are `Nat`/`Int`, the reconnect delay (a JS double) is modelled
in exact rational arithmetic, JSON values are an inductive type, and
external collaborators (the pairing store, the JSON parser of the JS
runtime, `Date.parse`, the per-account webhook processor) are explicit
parameters.  Stateful code (the rate-limit map, the retry loop, the
pairing store) is modelled by explicit state passing.
-/

/-! ## Character / string core (JS string primitives used by the plugin) -/

/-- Whitespace test used by the model of `String.prototype.trim`. -/
def isWs (c : Char) : Bool :=
  c == ' ' || c == '\t' || c == '\n' || c == '\r'

/-- Model of `String.prototype.toLowerCase` on the character list. -/
def lowerL (l : List Char) : List Char := l.map Char.toLower

/-- Drop trailing characters satisfying `isWs`. -/
def trimRightL (l : List Char) : List Char :=
  (l.reverse.dropWhile isWs).reverse

/-- Model of `String.prototype.trim` on the character list. -/
def trimL (l : List Char) : List Char :=
  trimRightL (l.dropWhile isWs)

/-- `String`-level trim. -/
def jsTrim (s : String) : String := ⟨trimL s.data⟩

/-- `String`-level lower-casing. -/
def jsLower (s : String) : String := ⟨lowerL s.data⟩

/-- Substring test on character lists (model of `String.prototype.includes`). -/
def containsSub (pat : List Char) : List Char → Bool
  | [] => pat.isEmpty
  | c :: rest => pat.isPrefixOf (c :: rest) || containsSub pat rest

/-- `String`-level substring test. -/
def strContainsB (s pat : String) : Bool := containsSub pat.data s.data

/-! ## protocol.ts: identifier normalization -/

/-- The channel-name tag removed by `stripProluofireImPrefix` (`proluofire-im:`). -/
def chanTag : List Char := "proluofire-im:".data

/-- `user:` tag. -/
def userTag : List Char := "user:".data

/-- `group:` tag. -/
def groupTag : List Char := "group:".data

/-- `stripProluofireImPrefix`: remove one leading case-insensitive
`proluofire-im:` tag (the regex `^proluofire-im:` with flag `i`, non-global),
then trim. -/
def stripProluofireImPfx (l : List Char) : List Char :=
  if chanTag.isPrefixOf (lowerL l) then trimL (l.drop chanTag.length) else trimL l

/-- `isNumericId`: the regex test `^\d+$`. -/
def isNumericL (l : List Char) : Bool :=
  !l.isEmpty && l.all (·.isDigit)

/-- Drop a single leading `@` or `#` (the regex replace `^[@#]` → empty). -/
def dropAtHash (l : List Char) : List Char :=
  match l with
  | c :: tl => if c = '@' ∨ c = '#' then tl else l
  | [] => l

/-- `normalizeProluofireImUserId` on the character list. -/
def normalizeProluofireImUserIdL (l : List Char) : List Char :=
  let trimmed := stripProluofireImPfx l
  if trimmed.isEmpty then []
  else if trimmed = ['*'] then ['*']
  else
    let lower := lowerL trimmed
    if userTag.isPrefixOf lower then trimL (lower.drop userTag.length)
    else lowerL (trimL (dropAtHash trimmed))

/-- `normalizeProluofireImGroupId` on the character list. -/
def normalizeProluofireImGroupIdL (l : List Char) : List Char :=
  let trimmed := stripProluofireImPfx l
  if trimmed.isEmpty then []
  else if trimmed = ['*'] then ['*']
  else
    let lower := lowerL trimmed
    if groupTag.isPrefixOf lower then trimL (lower.drop groupTag.length)
    else lowerL (trimL (dropAtHash trimmed))

/-- `normalizeProluofireImAllowEntry` on the character list (drops a single
leading `@`/`#` via `startsWith` + `slice(1)`, same effect as the regex). -/
def normalizeProluofireImAllowEntryL (l : List Char) : List Char :=
  let trimmed := stripProluofireImPfx l
  if trimmed.isEmpty then []
  else if trimmed = ['*'] then ['*']
  else
    let lower := lowerL trimmed
    if userTag.isPrefixOf lower then trimL (lower.drop userTag.length)
    else if groupTag.isPrefixOf lower then trimL (lower.drop groupTag.length)
    else lowerL (trimL (dropAtHash trimmed))

/-- Head test `startsWith("@") || startsWith("#")`. -/
def headIsAtHash (l : List Char) : Bool :=
  match l with
  | c :: _ => c == '@' || c == '#'
  | [] => false

/-- `normalizeTarget` on the character list. -/
def normalizeTargetL (l : List Char) : List Char :=
  let trimmed := stripProluofireImPfx l
  if trimmed.isEmpty then []
  else
    let lower := lowerL trimmed
    if userTag.isPrefixOf lower then
      let id := normalizeProluofireImUserIdL trimmed
      if id.isEmpty then [] else '@' :: id
    else if groupTag.isPrefixOf lower then
      let id := normalizeProluofireImGroupIdL trimmed
      if id.isEmpty then [] else '#' :: id
    else if headIsAtHash trimmed then trimmed
    else if isNumericL trimmed then '#' :: trimmed
    else trimmed

/-- `normalizeTarget` (protocol.ts). -/
def normalizeTarget (s : String) : String := ⟨normalizeTargetL s.data⟩

/-- `normalizeProluofireImUserId` (protocol.ts). -/
def normalizeProluofireImUserId (s : String) : String :=
  ⟨normalizeProluofireImUserIdL s.data⟩

/-- `normalizeProluofireImGroupId` (protocol.ts). -/
def normalizeProluofireImGroupId (s : String) : String :=
  ⟨normalizeProluofireImGroupIdL s.data⟩

/-- `normalizeProluofireImAllowEntry` (protocol.ts). -/
def normalizeProluofireImAllowEntry (s : String) : String :=
  ⟨normalizeProluofireImAllowEntryL s.data⟩

/-- `formatProluofireImUserEntry` (protocol.ts). -/
def formatProluofireImUserEntry (s : String) : String :=
  let normalized := normalizeProluofireImUserId s
  if normalized = "" then ""
  else if normalized = "*" then "*"
  else "@" ++ normalized

/-- `formatProluofireImGroupEntry` (protocol.ts). -/
def formatProluofireImGroupEntry (s : String) : String :=
  let normalized := normalizeProluofireImGroupId s
  if normalized = "" then ""
  else if normalized = "*" then "*"
  else "#" ++ normalized

/-! ## config-schema.ts / accounts.ts: authentication completeness -/

/-- Truthiness of `value?.trim()` for an optional string field. -/
def nonBlank (o : Option String) : Bool :=
  match o with
  | some s => jsTrim s != ""
  | none => false

/-- Result record of `validateAuthConfig`. -/
structure AuthValidation where
  valid : Bool
  error : Option String
deriving DecidableEq

/-- `validateAuthConfig` (config-schema.ts). -/
def validateAuthConfig (apiKey username password : Option String) : AuthValidation :=
  let hasApiKey := nonBlank apiKey
  let hasUsername := nonBlank username
  let hasPassword := nonBlank password
  if hasApiKey then ⟨true, none⟩
  else if hasUsername && hasPassword then ⟨true, none⟩
  else if !hasApiKey && !hasUsername && !hasPassword then
    ⟨false, some "Authentication required: provide apiKey or username+password"⟩
  else if hasUsername && !hasPassword then
    ⟨false, some "Password required when username is provided"⟩
  else if hasPassword && !hasUsername then
    ⟨false, some "Username required when password is provided"⟩
  else ⟨false, some "Invalid authentication configuration"⟩

/-- `isAccountConfigured` (accounts.ts), over the relevant config fields. -/
def isAccountConfigured (serverUrl apiKey username password : Option String) : Bool :=
  if !(nonBlank serverUrl) then false
  else (validateAuthConfig apiKey username password).valid

/-! ## client.ts: reconnect backoff

The delay is computed with JS doubles (`Math.pow(1.7, n)`); it is modelled
here in exact rational arithmetic. -/

/-- `WS_RECONNECT_BASE_MS` (client.ts). -/
def WS_RECONNECT_BASE_MS : ℚ := 1000

/-- `WS_RECONNECT_MAX_MS` (client.ts). -/
def WS_RECONNECT_MAX_MS : ℚ := 15000

/-- The reconnect delay computed by `scheduleReconnect` (client.ts) once
`reconnectAttempt` has been incremented to `attempt`:
`min(base * 1.7^(attempt-1), cap)`. -/
def scheduleReconnectDelay (attempt : Nat) : ℚ :=
  min (WS_RECONNECT_BASE_MS * (17 / 10 : ℚ) ^ (attempt - 1)) WS_RECONNECT_MAX_MS

/-! ## send.ts: rate limiting, sending, retry -/

/-- `RATE_LIMIT_WINDOW_MS` (send.ts). -/
def RATE_LIMIT_WINDOW_MS : Nat := 60000

/-- `RATE_LIMIT_MAX_MESSAGES` (send.ts). -/
def RATE_LIMIT_MAX_MESSAGES : Nat := 20

/-- One entry of the `rateLimitState` map (send.ts). -/
structure RateEntry where
  count : Nat
  resetAt : Nat
deriving DecidableEq

/-- `checkRateLimit` (send.ts): returns the (possibly reset or freshly
created) map entry, or throws the rate-limit error.  `Math.ceil(waitMs/1000)`
on a positive integer `waitMs` is `(waitMs + 999) / 1000` in `Nat`. -/
def checkRateLimit (target : String) (now : Nat) (st : Option RateEntry) :
    Except String RateEntry :=
  match st with
  | none => .ok ⟨0, now + RATE_LIMIT_WINDOW_MS⟩
  | some s =>
    if s.resetAt ≤ now then .ok ⟨0, now + RATE_LIMIT_WINDOW_MS⟩
    else if RATE_LIMIT_MAX_MESSAGES ≤ s.count then
      .error ("Rate limit exceeded for " ++ target ++ ". Try again in " ++
        toString ((s.resetAt - now + 999) / 1000) ++ "s")
    else .ok s

/-- `updateRateLimit` (send.ts). -/
def updateRateLimit (s : RateEntry) : RateEntry := ⟨s.count + 1, s.resetAt⟩

/-- `sendMessageProluofireIm` (send.ts) for one target: the state is the
rate-limit entry of the normalized target; the actual wire send is the
always-succeeding stub of the source.  On a rate-limit error the entry is
left unchanged and the error is rethrown wrapped. -/
def sendMessageProluofireIm (target : String) (now : Nat) (st : Option RateEntry) :
    Except String Unit × Option RateEntry :=
  let normalizedTarget := normalizeTarget target
  match checkRateLimit normalizedTarget now st with
  | .error e => (.error ("Failed to send message to " ++ target ++ ": " ++ e), st)
  | .ok s => (.ok (), some (updateRateLimit s))

/-- Iterate `sendMessageProluofireIm` over a list of send times. -/
def runSends (target : String) :
    List Nat → Option RateEntry → List (Except String Unit) × Option RateEntry
  | [], st => ([], st)
  | t :: ts, st =>
    let step := sendMessageProluofireIm target t st
    let rest := runSends target ts step.2
    (step.1 :: rest.1, rest.2)

/-- `isRetryableError` (send.ts). -/
def isRetryableError (message : String) : Bool :=
  let m := jsLower message
  if strContainsB m "network" || strContainsB m "timeout" || strContainsB m "econnrefused" then
    true
  else if strContainsB m "server error" || strContainsB m "503" || strContainsB m "502" then
    true
  else if strContainsB m "rate limit" then false
  else if strContainsB m "not found" || strContainsB m "unauthorized" ||
      strContainsB m "forbidden" || strContainsB m "invalid" then false
  else true

/-- Observable trace of one `sendMessageWithRetry` call: the final result,
how many attempts of the underlying send were made, and the backoff delays
slept between attempts. -/
structure RetryTrace where
  result : Except String Unit
  attemptsMade : Nat
  delays : List Nat

/-- The retry loop of `sendMessageWithRetry` (send.ts): `attempt` is the
current loop index, the second argument the number of remaining loop
iterations, and the third the `lastError` accumulator.  `outcome n` is the
result of the underlying send on attempt `n`. -/
def retryAux (outcome : Nat → Except String Unit) :
    Nat → Nat → Option String → RetryTrace
  | attempt, 0, lastErr =>
    ⟨.error (lastErr.getD "Failed to send message after retries"), attempt, []⟩
  | attempt, r + 1, _ =>
    match outcome attempt with
    | .ok _ => ⟨.ok (), attempt + 1, []⟩
    | .error e =>
      if isRetryableError e then
        let t := retryAux outcome (attempt + 1) r (some e)
        if r = 0 then t
        else ⟨t.result, t.attemptsMade, min (1000 * 2 ^ attempt) 10000 :: t.delays⟩
      else ⟨.error e, attempt + 1, []⟩

/-- `sendMessageWithRetry` (send.ts). -/
def sendMessageWithRetry (outcome : Nat → Except String Unit) (maxRetries : Nat) :
    RetryTrace :=
  retryAux outcome 0 maxRetries none

/-! ## monitor.ts: webhook receiver -/

/-- JSON values (the payloads handled by the webhook and the push client). -/
inductive Json where
  | null
  | bool (b : Bool)
  | num (n : Int)
  | str (s : String)
  | arr (elems : List Json)
  | obj (fields : List (String × Json))

/-- `isRecord` (client.ts): a non-null, non-array object. -/
def Json.isRecord : Json → Bool
  | .obj _ => true
  | _ => false

/-- Property access `value[key]` on a JSON value (`undefined` → `none`). -/
def Json.getField : Json → String → Option Json
  | .obj fields, k => fields.lookup k
  | _, _ => none

/-- `WEBHOOK_MAX_BYTES` (monitor.ts). -/
def WEBHOOK_MAX_BYTES : Nat := 1024 * 1024

/-- Outcome of `readJsonBody` (monitor.ts): either the body was aborted as
too large after consuming a given number of chunks (the connection is then
destroyed), rejected as empty or invalid JSON after a full read, or parsed. -/
inductive BodyRead where
  | tooLarge (chunksConsumed : Nat)
  | emptyBody
  | badJson
  | ok (value : Json)

/-- Chunk loop of `readJsonBody`: accumulates the byte total and the raw
string; aborts as soon as the total exceeds `maxBytes`.  `parse` stands for
the JS runtime's `JSON.parse` (`none` = exception). -/
def readJsonBodyAux (parse : String → Option Json) (maxBytes : Nat) :
    List String → Nat → String → Nat → BodyRead
  | [], _, raw, _ =>
    if jsTrim raw = "" then .emptyBody
    else
      match parse raw with
      | some v => .ok v
      | none => .badJson
  | c :: rest, total, raw, k =>
    let t := total + c.utf8ByteSize
    if maxBytes < t then .tooLarge (k + 1)
    else readJsonBodyAux parse maxBytes rest t (raw ++ c) (k + 1)

/-- `readJsonBody` (monitor.ts) over the request's chunk stream. -/
def readJsonBody (parse : String → Option Json) (chunks : List String)
    (maxBytes : Nat) : BodyRead :=
  readJsonBodyAux parse maxBytes chunks 0 "" 0

/-- Remove all trailing `/` characters (the regex replace `\/+$` → empty). -/
def dropTrailingSlashesL (l : List Char) : List Char :=
  (l.reverse.dropWhile (· == '/')).reverse

/-- `normalizeWebhookPath` (monitor.ts). -/
def normalizeWebhookPath (p : String) : String :=
  let trimmed := jsTrim p
  if trimmed = "" then "/"
  else
    let withSlash := if trimmed.data.head? = some '/' then trimmed else "/" ++ trimmed
    let normalized : String := ⟨dropTrailingSlashesL withSlash.data⟩
    if normalized = "" then "/" else normalized

/-- Modelled from the spec: `DEFAULT_ACCOUNT_ID`, the reserved default
account id exported by the host SDK (`openclaw/plugin-sdk`, not part of this
repository). -/
def DEFAULT_ACCOUNT_ID : String := "default"

/-- Payload stage of `readAccountHint` (monitor.ts): `payload.accountId`
if it is a string, else `payload.account` if it is a string. -/
def hintFromPayload (payload : Json) : String :=
  let payloadAccount : Option String :=
    match payload.getField "accountId" with
    | some (.str s) => some s
    | _ =>
      match payload.getField "account" with
      | some (.str s) => some s
      | _ => none
  match payloadAccount with
  | some s => if s ≠ "" then jsTrim s else ""
  | none => ""

/-- Header stage of `readAccountHint` (monitor.ts); `hget` reads the
lower-cased header record built by `normalizeHeaderRecord`. -/
def readAccountHintHeader (hget : String → Option String) (payload : Json) : String :=
  let fromHeader :=
    match hget "x-openclaw-account" with
    | some s => some s
    | none =>
      match hget "x-proluofire-account" with
      | some s => some s
      | none => hget "x-account-id"
  match fromHeader with
  | some s => if s ≠ "" then jsTrim s else hintFromPayload payload
  | none => hintFromPayload payload

/-- `readAccountHint` (monitor.ts); `qget` is `url.searchParams.get`. -/
def readAccountHint (qget hget : String → Option String) (payload : Json) : String :=
  let fromQuery :=
    match qget "accountId" with
    | some s => some s
    | none =>
      match qget "account" with
      | some s => some s
      | none => qget "account_id"
  match fromQuery with
  | some s => if s ≠ "" then jsTrim s else readAccountHintHeader hget payload
  | none => readAccountHintHeader hget payload

/-- The response written by the webhook handler: status code, whether the
`Allow: POST` header was set, the body text, and whether the request
connection was destroyed by the oversized-body abort. -/
structure HttpResponse where
  status : Nat
  allowPostHeader : Bool
  body : String
  destroyed : Bool
deriving DecidableEq

/-- Result of `handleProluofireImWebhookRequest`: `notHandled` models the
`return false` taken before any response is written. -/
inductive WebhookOutcome where
  | notHandled
  | handled (resp : HttpResponse)
deriving DecidableEq

/-- `handleProluofireImWebhookRequest` (monitor.ts).  `regs` is the
`webhookTargets` map (normalized path → account ids in registration order);
the per-target `handleWebhookRequest` processing only logs failures and
never changes the response, so it is not part of the observable outcome. -/
def handleProluofireImWebhookRequest
    (regs : List (String × List String)) (parse : String → Option Json)
    (method rawPath : String) (qget hget : String → Option String)
    (chunks : List String) : WebhookOutcome :=
  let path := normalizeWebhookPath rawPath
  match regs.lookup path with
  | none => .notHandled
  | some targets =>
    if targets.isEmpty then .notHandled
    else if method ≠ "POST" then .handled ⟨405, true, "Method Not Allowed", false⟩
    else
      match readJsonBody parse chunks WEBHOOK_MAX_BYTES with
      | .tooLarge _ => .handled ⟨413, false, "payload too large", true⟩
      | .emptyBody => .handled ⟨400, false, "empty payload", false⟩
      | .badJson => .handled ⟨400, false, "invalid json", false⟩
      | .ok payload =>
        let accountHint := readAccountHint qget hget payload
        let matching :=
          if accountHint ≠ "" then
            targets.filter (fun a => jsLower a == jsLower accountHint)
          else if 1 < targets.length then
            match targets.find? (fun a => a == DEFAULT_ACCOUNT_ID) with
            | some a => [a]
            | none =>
              match targets.head? with
              | some a => [a]
              | none => []
          else targets
        if matching.isEmpty then .handled ⟨404, false, "unknown account", false⟩
        else .handled ⟨200, false, "\x7b\"success\":true\x7d", false⟩

/-! ## monitor.ts: policy engine -/

/-- DM policy values (`"pairing" | "allowlist" | "open"`). -/
inductive DmPolicy where
  | pairing
  | allowlist
  | openPolicy
deriving DecidableEq

/-- Group policy values (`"allowlist" | "open" | "disabled"`). -/
inductive GroupPolicy where
  | allowlist
  | openPolicy
  | disabled
deriving DecidableEq

/-- `isAllowedSender` (monitor.ts). -/
def isAllowedSender (allowList : List String) (senderId : String) : Bool :=
  allowList.contains "*" || allowList.contains senderId

/-- `normalizeAllowlist` (monitor.ts): map entries through
`normalizeProluofireImAllowEntry` and drop the empty results. -/
def normalizeAllowlist (list : Option (List String)) : List String :=
  match list with
  | none => []
  | some l => (l.map normalizeProluofireImAllowEntry).filter (fun s => s ≠ "")

/-- The `MessagePolicies` record (monitor.ts). -/
structure MessagePolicies where
  dmPolicy : DmPolicy
  groupPolicy : GroupPolicy
  effectiveAllowFrom : List String
  effectiveGroupAllowFrom : List String
deriving DecidableEq

/-- `resolveMessagePolicies` (monitor.ts): `dmPolicyCfg` is
`account.config.dm?.policy`, `groupPolicyCfg` is `account.config.groupPolicy`,
`defaultGroupPolicy` the channel-defaults fallback, `allowFromCfg` is
`account.config.dm?.allowFrom`, `groupAllowFromCfg` is
`account.config.groupAllowFrom`, and `storeAllowFrom` the pairing store's
allow-list (`readAllowFromStore`). -/
def resolveMessagePolicies (dmPolicyCfg : Option DmPolicy)
    (groupPolicyCfg defaultGroupPolicy : Option GroupPolicy)
    (allowFromCfg groupAllowFromCfg : Option (List String))
    (storeAllowFrom : List String) : MessagePolicies :=
  let dmPolicy := dmPolicyCfg.getD .pairing
  let groupPolicy := groupPolicyCfg.getD (defaultGroupPolicy.getD .allowlist)
  let configAllowFrom := normalizeAllowlist allowFromCfg
  let configGroupAllowFrom := normalizeAllowlist groupAllowFromCfg
  let storeAllowList := normalizeAllowlist (some storeAllowFrom)
  let effectiveAllowFrom := (configAllowFrom ++ storeAllowList).filter (fun s => s ≠ "")
  let baseGroupAllowFrom :=
    if 0 < configGroupAllowFrom.length then configGroupAllowFrom else configAllowFrom
  let effectiveGroupAllowFrom :=
    (baseGroupAllowFrom ++ storeAllowList).filter (fun s => s ≠ "")
  ⟨dmPolicy, groupPolicy, effectiveAllowFrom, effectiveGroupAllowFrom⟩

/-- One entry of the `groups` config map. -/
structure GroupEntry where
  users : Option (List String)
  requireMention : Option Bool
deriving DecidableEq

/-- The `GroupMatch` record (monitor.ts). -/
structure GroupMatch where
  entry : Option GroupEntry
  wildcard : Option GroupEntry
  allowed : Bool
  allowlistConfigured : Bool
deriving DecidableEq

/-- `resolveGroupMatch` (monitor.ts); `groups` is the config's group map in
key order. -/
def resolveGroupMatch (groups : List (String × GroupEntry)) (groupId : String)
    (groupPolicy : GroupPolicy) : GroupMatch :=
  let allowlistConfigured := !groups.isEmpty
  let normalized := normalizeProluofireImGroupId groupId
  let matched :=
    if normalized ≠ "" then
      groups.find? (fun kv => normalizeProluofireImGroupId kv.1 == normalized)
    else none
  let entry := matched.map Prod.snd
  let wildcard := groups.lookup "*"
  let allowed :=
    match groupPolicy with
    | .openPolicy => true
    | .disabled => false
    | .allowlist => if allowlistConfigured then entry.isSome || wildcard.isSome else false
  ⟨entry, wildcard, allowed, allowlistConfigured⟩

/-- The `MessageIdentity` record (monitor.ts). -/
structure MessageIdentity where
  fromTarget : String
  toTarget : String
  senderId : String
  groupId : String
  isGroup : Bool
deriving DecidableEq

/-- Result triple of `validateGroupAccess` (monitor.ts). -/
structure GroupAccessResult where
  allowed : Bool
  groupMatch : GroupMatch
  groupUsers : List String
deriving DecidableEq

/-- `validateGroupAccess` (monitor.ts). -/
def validateGroupAccess (identity : MessageIdentity) (policies : MessagePolicies)
    (groups : List (String × GroupEntry)) : GroupAccessResult :=
  if !identity.isGroup then
    ⟨true, ⟨none, none, true, false⟩, []⟩
  else
    let groupMatch := resolveGroupMatch groups identity.toTarget policies.groupPolicy
    if policies.groupPolicy = .disabled then ⟨false, groupMatch, []⟩
    else if policies.groupPolicy ≠ .openPolicy ∧ groupMatch.allowed = false then
      ⟨false, groupMatch, []⟩
    else
      let groupUsers := normalizeAllowlist (groupMatch.entry.bind (·.users))
      let allowFrom :=
        if 0 < groupUsers.length then groupUsers else policies.effectiveGroupAllowFrom
      let senderAllowed := allowFrom.isEmpty || isAllowedSender allowFrom identity.senderId
      if senderAllowed then ⟨true, groupMatch, groupUsers⟩
      else ⟨false, groupMatch, groupUsers⟩

/-- Observable outcome of one `validateDmAccess` call (monitor.ts):
whether the message is admitted, how many pairing-reply sends were
attempted, the target of that send, whether a send failure was logged, and
whether any exception escapes the function (the `try`/`catch` around the
pairing reply confines send failures to a log line). -/
structure DmAccessOutcome where
  allowed : Bool
  pairingReplyAttempts : Nat
  pairingReplyTarget : Option String
  sendErrorLogged : Bool
  errorPropagated : Bool
deriving DecidableEq

/-- `validateDmAccess` (monitor.ts).  `upsertCreated` is the `created` flag
reported by the pairing store's `upsertPairingRequest`; `sendFails` says
whether the attempted pairing-reply send throws. -/
def validateDmAccess (identity : MessageIdentity) (policies : MessagePolicies)
    (roomId : Option String) (upsertCreated : Bool) (sendFails : Bool) :
    DmAccessOutcome :=
  if identity.isGroup then ⟨true, 0, none, false, false⟩
  else
    let senderAllowed :=
      decide (policies.dmPolicy = .openPolicy) ||
        isAllowedSender policies.effectiveAllowFrom identity.senderId
    if senderAllowed then ⟨true, 0, none, false, false⟩
    else if policies.dmPolicy = .pairing then
      if upsertCreated then
        let pairingTarget :=
          match roomId with
          | some r => if jsTrim r ≠ "" then r else formatProluofireImUserEntry identity.senderId
          | none => formatProluofireImUserEntry identity.senderId
        ⟨false, 1, some pairingTarget, sendFails, false⟩
      else ⟨false, 0, none, false, false⟩
    else ⟨false, 0, none, false, false⟩

/-- Modelled from the spec: the pairing store's `upsertPairingRequest`
(host SDK, not part of this repository).  It reports `created = true`
exactly when no pairing request is outstanding for the sender, and records
the request. -/
def upsertPairingRequest (store : List String) (id : String) : Bool × List String :=
  if store.contains id then (false, store) else (true, id :: store)

/-- Two consecutive inbound DMs from the same sender, threading the pairing
store through the upserts as `handleIncomingMessage` does. -/
def dmPairingTwice (identity : MessageIdentity) (policies : MessagePolicies)
    (roomId : Option String) (store : List String) (sendFails1 sendFails2 : Bool) :
    DmAccessOutcome × DmAccessOutcome × List String :=
  let u1 := upsertPairingRequest store identity.senderId
  let o1 := validateDmAccess identity policies roomId u1.1 sendFails1
  let u2 := upsertPairingRequest u1.2 identity.senderId
  let o2 := validateDmAccess identity policies roomId u2.1 sendFails2
  (o1, o2, u2.2)

/-! ## client.ts: push-connection payload parsing -/

/-- The canonical message record (types.ts `ProluofireImMessage`), restricted
to the fields produced or consumed by the embedded functions.  The source's
`from` and `to` fields are `fromU` and `toU` here (both are Lean keywords). -/
structure ProluofireImMessage where
  id : String
  fromU : String
  toU : String
  content : String
  timestamp : Int
  roomId : Option String
  threadId : Option String
  replyToId : Option String
  selfUid : Option String
deriving DecidableEq

/-- `??` on JSON field access: `null`/absent fall through. -/
def jsCoalesce (a b : Option Json) : Option Json :=
  match a with
  | none => b
  | some .null => b
  | some v => some v

/-- `normalizeId` (client.ts): finite numbers are truncated and stringified
(JSON numbers are modelled as integers, so truncation is the identity),
strings are trimmed, everything else is `""`. -/
def normalizeId (v : Option Json) : String :=
  match v with
  | some (.num n) => toString n
  | some (.str s) => jsTrim s
  | _ => ""

/-- Value of the longest leading digit run (`none` when there is none),
used to model `Number.parseInt(s, 10)`. -/
def digitsVal (l : List Char) : Option Nat :=
  let ds := l.takeWhile (·.isDigit)
  if ds.isEmpty then none
  else some (ds.foldl (fun acc c => acc * 10 + (c.toNat - 48)) 0)

/-- `Number.parseInt(s, 10)` on an already-trimmed string: optional sign,
then the longest digit run; `none` models `NaN`. -/
def parseIntJs (l : List Char) : Option Int :=
  match l with
  | '-' :: rest => (digitsVal rest).map (fun n => -(n : Int))
  | '+' :: rest => (digitsVal rest).map (fun n => (n : Int))
  | _ => (digitsVal l).map (fun n => (n : Int))

/-- `parseReplyMessageId` (client.ts). -/
def parseReplyMessageId (v : Option Json) : Int :=
  match v with
  | some (.num n) => if 0 < n then n else 0
  | some (.str s) =>
    let t := jsTrim s
    if t = "" then 0
    else
      match parseIntJs t.data with
      | some m => if 0 < m then m else 0
      | none => 0
  | _ => 0

/-- `parseTimestamp` (client.ts); `dateParse` stands for the JS runtime's
`Date.parse` (`none` = `NaN`) and `now` for `Date.now()`. -/
def parseTimestamp (dateParse : String → Option Int) (now : Int)
    (v fb : Option Json) : Int :=
  let raw :=
    match v with
    | some (.str s) => s
    | _ =>
      match fb with
      | some (.str s) => s
      | _ => ""
  if raw ≠ "" then
    match dateParse raw with
    | some t => t
    | none => now
  else now

/-- The `data` local of `parseInboundMessage`: `isRecord(payload.data) ?
payload.data : payload`. -/
def pimData (payload : Json) : Json :=
  match payload.getField "data" with
  | some d => if d.isRecord then d else payload
  | none => payload

/-- The `messagePayload` local of `parseInboundMessage`. -/
def pimMessagePayload (payload : Json) : Json :=
  match (pimData payload).getField "payload" with
  | some p => if p.isRecord then p else pimData payload
  | none => pimData payload

/-- The `rootEventType` local of `parseInboundMessage`. -/
def pimRootEventType (payload : Json) : String :=
  match payload.getField "eventType" with
  | some (.str s) => s
  | _ => ""

/-- The `eventType` local of `parseInboundMessage`. -/
def pimEventType (payload : Json) : String :=
  match (pimData payload).getField "eventType" with
  | some (.str s) => s
  | _ => pimRootEventType payload

/-- The `contentType` local of `parseInboundMessage`. -/
def pimContentType (payload : Json) : String :=
  match (pimMessagePayload payload).getField "contentType" with
  | some (.str s) => s
  | some (.num n) => toString n
  | _ => ""

/-- The `messageType` local of `parseInboundMessage`. -/
def pimMessageType (payload : Json) : String :=
  match (pimMessagePayload payload).getField "messageType" with
  | some (.str s) => s
  | _ => ""

/-- The `isWithdraw === true` test of `parseInboundMessage`. -/
def pimWithdrawn (payload : Json) : Bool :=
  match (pimMessagePayload payload).getField "isWithdraw" with
  | some (.bool true) => true
  | _ => false

/-- The `content` local of `parseInboundMessage`. -/
def pimContent (payload : Json) : String :=
  match (pimMessagePayload payload).getField "content" with
  | some (.str s) => s
  | _ => ""

/-- The `roomId` local of `parseInboundMessage`. -/
def pimRoomId (payload : Json) : String :=
  normalizeId ((pimMessagePayload payload).getField "roomId")

/-- The `userId` local of `parseInboundMessage`
(`messagePayload.userId ?? data.uid`). -/
def pimUserId (payload : Json) : String :=
  normalizeId (jsCoalesce ((pimMessagePayload payload).getField "userId")
    ((pimData payload).getField "uid"))

/-- The `messageId` local of `parseInboundMessage`: the `||` chain
`normalizeId(id) || normalizeId(messageId) || normalizeId(refId)`. -/
def pimMessageId (payload : Json) : String :=
  let idA := normalizeId ((pimMessagePayload payload).getField "id")
  let idB := normalizeId ((pimMessagePayload payload).getField "messageId")
  let idC := normalizeId ((pimData payload).getField "refId")
  if idA ≠ "" then idA else if idB ≠ "" then idB else idC

/-- The `replyMessageId` local of `parseInboundMessage`. -/
def pimReplyMessageId (payload : Json) : Int :=
  parseReplyMessageId ((pimMessagePayload payload).getField "replyMessageId")

/-- `parseInboundMessage` (client.ts): total over every JSON value; the
guard chain of the source, with the source's locals factored into the
`pim*` projections above; the commented-out heuristics of the source leave
`to` hard-wired to `""`. -/
def parseInboundMessage (dateParse : String → Option Int) (now : Int)
    (payload : Json) : Option ProluofireImMessage :=
  if !payload.isRecord then none
  else if pimEventType payload ≠ "" ∧ pimEventType payload ≠ "ImMessageEvent" then none
  else if pimContentType payload ≠ "" ∧ jsLower (pimContentType payload) ≠ "text" ∧
      pimContentType payload ≠ "1" then none
  else if pimMessageType payload ≠ "" ∧ jsLower (pimMessageType payload) ≠ "user" then none
  else if pimWithdrawn payload then none
  else if jsTrim (pimContent payload) = "" then none
  else if pimRoomId payload = "" ∨ pimUserId payload = "" then none
  else
    some
      { id := if pimMessageId payload ≠ "" then pimMessageId payload
          else "ws_" ++ toString now
        fromU := "user:" ++ pimUserId payload
        toU := ""
        content := pimContent payload
        timestamp := parseTimestamp dateParse now
          ((pimMessagePayload payload).getField "createdAt")
          ((pimData payload).getField "createdAt")
        roomId := some (pimRoomId payload)
        threadId := none
        replyToId := if 0 < pimReplyMessageId payload
          then some (toString (pimReplyMessageId payload)) else none
        selfUid := none }

/-! ## protocol.ts / monitor.ts: decode and participant identification -/

/-- `convertProluofireImToMarkdown` (protocol.ts, pass-through stub). -/
def convertProluofireImToMarkdown (s : String) : String := s

/-- Result record of `decodeMessage` (protocol.ts). -/
structure DecodedMessage where
  content : String
  fromU : String
  timestamp : Int
  threadId : Option String
  replyToId : Option String
deriving DecidableEq

/-- `decodeMessage` (protocol.ts). -/
def decodeMessage (m : ProluofireImMessage) : DecodedMessage :=
  ⟨convertProluofireImToMarkdown m.content, m.fromU, m.timestamp, m.threadId, m.replyToId⟩

/-- `identifyMessageParticipants` (monitor.ts).  `isGroup` is
`Boolean(toTarget && toTarget.startsWith("#"))`, i.e. the first character of
`toTarget` is `#`. -/
def identifyMessageParticipants (message : ProluofireImMessage) : MessageIdentity :=
  let decoded := decodeMessage message
  let fromTarget := normalizeTarget decoded.fromU
  let toTarget := normalizeTarget message.toU
  let isGroup := toTarget.data.head? == some '#'
  let senderId :=
    normalizeProluofireImUserId (if fromTarget ≠ "" then fromTarget else message.fromU)
  let groupId := if isGroup then normalizeProluofireImGroupId toTarget else ""
  ⟨fromTarget, toTarget, senderId, groupId, isGroup⟩

/-! ## Auxiliary observables used by the statements -/

/-- Total byte size of the request body chunks. -/
def sumBytes (chunks : List String) : Nat := (chunks.map String.utf8ByteSize).sum

/-- Concatenation of the body chunks (the `raw` accumulator of `readJsonBody`
after a complete read). -/
def concatChunks : List String → String
  | [] => ""
  | c :: rest => c ++ concatChunks rest

/-- `pat` occurs as a contiguous substring of `s`. -/
def StrContains (s pat : String) : Prop := ∃ a b, s = a ++ pat ++ b

/-! ## Helper lemmas on the string core -/

lemma head_not_of_dropWhile_self {p : Char → Bool} {a : Char} {tl : List Char}
    (h : (a :: tl).dropWhile p = a :: tl) : p a = false := by
  by_contra hpa
  have hpa' : p a = true := by simpa using hpa
  rw [List.dropWhile_cons, if_pos hpa'] at h
  have h1 := congrArg List.length h
  have h2 := (List.dropWhile_sublist (l := tl) p).length_le
  simp at h1
  omega

lemma dropWhile_eq_self_of_prefix {p : Char → Bool} {l' l : List Char}
    (h : l' <+: l) (hfix : l.dropWhile p = l) : l'.dropWhile p = l' := by
  obtain ⟨t, rfl⟩ := h
  cases l' with
  | nil => rfl
  | cons a tl =>
    rw [List.cons_append] at hfix
    have ha : p a = false := head_not_of_dropWhile_self hfix
    simp [List.dropWhile_cons, ha]

lemma trimRightL_eq_rdropWhile (l : List Char) : trimRightL l = l.rdropWhile isWs := rfl

lemma noLead_trimL (l : List Char) : (trimL l).dropWhile isWs = trimL l := by
  have hpre : trimL l <+: l.dropWhile isWs := by
    rw [trimL, trimRightL_eq_rdropWhile]
    exact List.rdropWhile_prefix _ _
  exact dropWhile_eq_self_of_prefix hpre (List.dropWhile_idempotent _ _)

lemma noTrail_trimL (l : List Char) : trimRightL (trimL l) = trimL l := by
  rw [trimL, trimRightL_eq_rdropWhile, trimRightL_eq_rdropWhile]
  exact List.rdropWhile_idempotent _ _

lemma trimL_eq_self {l : List Char} (h1 : l.dropWhile isWs = l) (h2 : trimRightL l = l) :
    trimL l = l := by
  rw [trimL, h1, h2]

lemma trimL_idem (l : List Char) : trimL (trimL l) = trimL l :=
  trimL_eq_self (noLead_trimL l) (noTrail_trimL l)

lemma noTrail_of_trimFixed {x : List Char} (h : trimL x = x) : trimRightL x = x := by
  conv_lhs => rw [← h]
  rw [noTrail_trimL]
  exact h

lemma noLead_of_trimFixed {x : List Char} (h : trimL x = x) : x.dropWhile isWs = x := by
  conv_lhs => rw [← h]
  rw [noLead_trimL]
  exact h

lemma dropWhile_append_last {p : Char → Bool} {c : Char} (h : p c = false) (xs : List Char) :
    (xs ++ [c]).dropWhile p = xs.dropWhile p ++ [c] := by
  induction xs with
  | nil => simp [List.dropWhile_cons, h]
  | cons a tl ih =>
    by_cases hpa : p a
    · simp [List.dropWhile_cons, hpa, ih]
    · simp [List.dropWhile_cons, hpa]

lemma trimRightL_cons {c : Char} (h : isWs c = false) (l : List Char) :
    trimRightL (c :: l) = c :: trimRightL l := by
  unfold trimRightL
  rw [List.reverse_cons, dropWhile_append_last h, List.reverse_append]
  simp

lemma trimL_cons {c : Char} (h : isWs c = false) (l : List Char) :
    trimL (c :: l) = c :: trimRightL l := by
  rw [trimL, List.dropWhile_cons, if_neg (by simp [h]), trimRightL_cons h]

lemma trimFixed_cons {c : Char} {x : List Char} (hc : isWs c = false) (h : trimL x = x) :
    trimL (c :: x) = c :: x := by
  rw [trimL_cons hc, noTrail_of_trimFixed h]

lemma isWs_iff {c : Char} : isWs c = true ↔ (c = ' ' ∨ c = '\t' ∨ c = '\n' ∨ c = '\r') := by
  simp [isWs, or_assoc]

lemma isWs_toLower (c : Char) : isWs (Char.toLower c) = isWs c := by
  unfold Char.toLower
  by_cases h : c.toNat ≥ 65 ∧ c.toNat ≤ 90
  · rw [if_pos h]
    obtain ⟨h1, h2⟩ := h
    have hc : isWs c = false := by
      cases hw : isWs c
      · rfl
      · exfalso
        rcases isWs_iff.1 hw with rfl | rfl | rfl | rfl <;> simp_all
    rw [hc]
    obtain ⟨m, hm⟩ : ∃ m, c.toNat = m := ⟨_, rfl⟩
    rw [hm] at h1 h2 ⊢
    interval_cases m <;> decide
  · rw [if_neg h]

lemma noLead_lowerL {l : List Char} (h : l.dropWhile isWs = l) :
    (lowerL l).dropWhile isWs = lowerL l := by
  cases l with
  | nil => rfl
  | cons a tl =>
    have ha := head_not_of_dropWhile_self h
    simp [lowerL, List.dropWhile_cons, isWs_toLower, ha]

lemma noTrail_lowerL {l : List Char} (h : trimRightL l = l) :
    trimRightL (lowerL l) = lowerL l := by
  have h' : l.reverse.dropWhile isWs = l.reverse := by
    have h2 := congrArg List.reverse h
    rw [trimRightL, List.reverse_reverse] at h2
    exact h2
  have h2 : (lowerL l.reverse).dropWhile isWs = lowerL l.reverse := noLead_lowerL h'
  have h3 : (lowerL l).reverse = lowerL l.reverse := by
    simp [lowerL, List.map_reverse]
  rw [trimRightL, h3, h2, ← h3, List.reverse_reverse]

lemma trimFixed_lowerL {l : List Char} (h : trimL l = l) : trimL (lowerL l) = lowerL l :=
  trimL_eq_self (noLead_lowerL (noLead_of_trimFixed h)) (noTrail_lowerL (noTrail_of_trimFixed h))

lemma trimFixed_strip (l : List Char) :
    trimL (stripProluofireImPfx l) = stripProluofireImPfx l := by
  unfold stripProluofireImPfx
  split <;> exact trimL_idem _

lemma trimFixed_userIdL (x : List Char) :
    trimL (normalizeProluofireImUserIdL x) = normalizeProluofireImUserIdL x := by
  unfold normalizeProluofireImUserIdL
  dsimp only
  split_ifs
  · rfl
  · rfl
  · exact trimL_idem _
  · exact trimFixed_lowerL (trimL_idem _)

lemma trimFixed_groupIdL (x : List Char) :
    trimL (normalizeProluofireImGroupIdL x) = normalizeProluofireImGroupIdL x := by
  unfold normalizeProluofireImGroupIdL
  dsimp only
  split_ifs
  · rfl
  · rfl
  · exact trimL_idem _
  · exact trimFixed_lowerL (trimL_idem _)

lemma char_toNat_digit {c : Char} (h : c.isDigit = true) :
    48 ≤ c.toNat ∧ c.toNat ≤ 57 := by
  simp only [Char.isDigit, Bool.and_eq_true, decide_eq_true_eq] at h
  obtain ⟨h1, h2⟩ := h
  constructor
  · exact h1
  · exact h2

lemma toLower_digit {c : Char} (h : c.isDigit = true) : Char.toLower c = c := by
  obtain ⟨h1, h2⟩ := char_toNat_digit h
  unfold Char.toLower
  rw [if_neg]
  omega

lemma beq_digit_false_left {c : Char} (pat : Char) (h : c.isDigit = true)
    (hp : pat.isDigit = false) : (c == pat) = false := by
  cases hb : c == pat
  · rfl
  · exfalso
    have hcp : c = pat := by simpa using hb
    rw [← hcp, h] at hp
    cases hp

lemma beq_digit_false_right {c : Char} (pat : Char) (h : c.isDigit = true)
    (hp : pat.isDigit = false) : (pat == c) = false := by
  cases hb : pat == c
  · rfl
  · exfalso
    have hcp : pat = c := by simpa using hb
    rw [hcp, h] at hp
    cases hp

lemma isPrefixOf_cons_cons (a b : Char) (as bs : List Char) :
    (a :: as).isPrefixOf (b :: bs) = ((a == b) && as.isPrefixOf bs) := rfl

lemma numeric_head_facts {c : Char} {tl : List Char}
    (hnum : isNumericL (c :: tl) = true) :
    headIsAtHash (c :: tl) = false ∧
    userTag.isPrefixOf (lowerL (c :: tl)) = false ∧
    groupTag.isPrefixOf (lowerL (c :: tl)) = false ∧
    chanTag.isPrefixOf (lowerL (c :: tl)) = false := by
  have hc : c.isDigit = true := by
    simp [isNumericL] at hnum
    exact hnum.1
  have hlow : lowerL (c :: tl) = c :: lowerL tl := by
    simp [lowerL, toLower_digit hc]
  refine ⟨?_, ?_, ?_, ?_⟩
  · simp [headIsAtHash, beq_digit_false_left '@' hc (by decide),
      beq_digit_false_left '#' hc (by decide)]
  · rw [hlow, show userTag = 'u' :: "ser:".data from rfl, isPrefixOf_cons_cons,
      beq_digit_false_right 'u' hc (by decide), Bool.false_and]
  · rw [hlow, show groupTag = 'g' :: "roup:".data from rfl, isPrefixOf_cons_cons,
      beq_digit_false_right 'g' hc (by decide), Bool.false_and]
  · rw [hlow, show chanTag = 'p' :: "roluofire-im:".data from rfl, isPrefixOf_cons_cons,
      beq_digit_false_right 'p' hc (by decide), Bool.false_and]

lemma targetL_atHash {l : List Char} (hh : headIsAtHash (stripProluofireImPfx l) = true) :
    normalizeTargetL l = stripProluofireImPfx l := by
  rcases hcase : stripProluofireImPfx l with _ | ⟨c, tl⟩
  · rw [hcase] at hh
    cases hh
  · rw [hcase] at hh
    have hc : c = '@' ∨ c = '#' := by simpa [headIsAtHash] using hh
    have hu : userTag.isPrefixOf (lowerL (c :: tl)) = false := by
      rcases hc with rfl | rfl <;> rfl
    have hg : groupTag.isPrefixOf (lowerL (c :: tl)) = false := by
      rcases hc with rfl | rfl <;> rfl
    unfold normalizeTargetL
    dsimp only
    rw [hcase]
    simp [hu, hg, hh]

lemma targetL_numeric {l : List Char} (hnum : isNumericL (stripProluofireImPfx l) = true) :
    normalizeTargetL l = '#' :: stripProluofireImPfx l := by
  rcases hcase : stripProluofireImPfx l with _ | ⟨c, tl⟩
  · rw [hcase] at hnum
    cases hnum
  · rw [hcase] at hnum
    obtain ⟨hah, hu, hg, _⟩ := numeric_head_facts hnum
    unfold normalizeTargetL
    dsimp only
    rw [hcase]
    simp [hu, hg, hah, hnum]

lemma targetL_default {l : List Char} (hne : stripProluofireImPfx l ≠ [])
    (hu : userTag.isPrefixOf (lowerL (stripProluofireImPfx l)) = false)
    (hg : groupTag.isPrefixOf (lowerL (stripProluofireImPfx l)) = false)
    (hah : headIsAtHash (stripProluofireImPfx l) = false)
    (hnum : isNumericL (stripProluofireImPfx l) = false) :
    normalizeTargetL l = stripProluofireImPfx l := by
  have hne' : (stripProluofireImPfx l).isEmpty = false := by
    rcases hx : stripProluofireImPfx l with _ | ⟨c, tl⟩
    · exact absurd hx hne
    · rfl
  unfold normalizeTargetL
  dsimp only
  simp [hne', hu, hg, hah, hnum]

lemma strip_of_trimFixed {o : List Char} (htrim : trimL o = o)
    (hchan : chanTag.isPrefixOf (lowerL o) = false) :
    stripProluofireImPfx o = o := by
  unfold stripProluofireImPfx
  rw [if_neg (by simp [hchan])]
  exact htrim

lemma chan_not_prefix_atHash {c : Char} {tl : List Char} (hc : c = '@' ∨ c = '#') :
    chanTag.isPrefixOf (lowerL (c :: tl)) = false := by
  rcases hc with rfl | rfl <;> rfl

lemma normalizeTargetL_fixed_atHash {o : List Char} (htrim : trimL o = o)
    (hh : headIsAtHash o = true) : normalizeTargetL o = o := by
  rcases o with _ | ⟨c, tl⟩
  · cases hh
  · have hc : c = '@' ∨ c = '#' := by simpa [headIsAtHash] using hh
    have hstrip := strip_of_trimFixed htrim (chan_not_prefix_atHash hc)
    have h2 : headIsAtHash (stripProluofireImPfx (c :: tl)) = true := by
      rw [hstrip]; exact hh
    rw [targetL_atHash h2, hstrip]

lemma normalizeTargetL_fixed_default {o : List Char} (htrim : trimL o = o)
    (hchan : chanTag.isPrefixOf (lowerL o) = false)
    (hu : userTag.isPrefixOf (lowerL o) = false)
    (hg : groupTag.isPrefixOf (lowerL o) = false)
    (hah : headIsAtHash o = false) (hnum : isNumericL o = false) (hne : o ≠ []) :
    normalizeTargetL o = o := by
  have hstrip := strip_of_trimFixed htrim hchan
  refine (targetL_default ?_ ?_ ?_ ?_ ?_).trans hstrip <;> rw [hstrip]
  · exact hne
  · exact hu
  · exact hg
  · exact hah
  · exact hnum

lemma normalizeTargetL_shape (l : List Char) :
    normalizeTargetL l = [] ∨
    (headIsAtHash (normalizeTargetL l) = true ∧ trimL (normalizeTargetL l) = normalizeTargetL l) ∨
    (trimL (normalizeTargetL l) = normalizeTargetL l ∧
      userTag.isPrefixOf (lowerL (normalizeTargetL l)) = false ∧
      groupTag.isPrefixOf (lowerL (normalizeTargetL l)) = false ∧
      headIsAtHash (normalizeTargetL l) = false ∧
      isNumericL (normalizeTargetL l) = false ∧
      normalizeTargetL l ≠ []) := by
  by_cases h0 : (stripProluofireImPfx l).isEmpty = true
  · left
    unfold normalizeTargetL
    dsimp only
    rw [if_pos h0]
  · have hne : stripProluofireImPfx l ≠ [] := by
      rcases hx : stripProluofireImPfx l with _ | ⟨c, tl⟩
      · rw [hx] at h0
        exact absurd rfl h0
      · simp
    by_cases hu : userTag.isPrefixOf (lowerL (stripProluofireImPfx l)) = true
    · have he : normalizeTargetL l =
          (if (normalizeProluofireImUserIdL (stripProluofireImPfx l)).isEmpty then []
           else '@' :: normalizeProluofireImUserIdL (stripProluofireImPfx l)) := by
        unfold normalizeTargetL
        dsimp only
        rw [if_neg (by simp [h0]), if_pos hu]
      by_cases hid : (normalizeProluofireImUserIdL (stripProluofireImPfx l)).isEmpty = true
      · left
        rw [he, if_pos hid]
      · right; left
        rw [he, if_neg hid]
        exact ⟨rfl, trimFixed_cons rfl (trimFixed_userIdL _)⟩
    · by_cases hg : groupTag.isPrefixOf (lowerL (stripProluofireImPfx l)) = true
      · have he : normalizeTargetL l =
            (if (normalizeProluofireImGroupIdL (stripProluofireImPfx l)).isEmpty then []
             else '#' :: normalizeProluofireImGroupIdL (stripProluofireImPfx l)) := by
          unfold normalizeTargetL
          dsimp only
          rw [if_neg (by simp [h0]), if_neg (by simp [hu]), if_pos hg]
        by_cases hid : (normalizeProluofireImGroupIdL (stripProluofireImPfx l)).isEmpty = true
        · left
          rw [he, if_pos hid]
        · right; left
          rw [he, if_neg hid]
          exact ⟨rfl, trimFixed_cons rfl (trimFixed_groupIdL _)⟩
      · by_cases hah : headIsAtHash (stripProluofireImPfx l) = true
        · right; left
          rw [targetL_atHash hah]
          exact ⟨hah, trimFixed_strip l⟩
        · by_cases hnum : isNumericL (stripProluofireImPfx l) = true
          · right; left
            rw [targetL_numeric hnum]
            refine ⟨rfl, trimFixed_cons rfl (trimFixed_strip l)⟩
          · right; right
            have hu' : userTag.isPrefixOf (lowerL (stripProluofireImPfx l)) = false := by
              simp only [Bool.not_eq_true] at hu
              exact hu
            have hg' : groupTag.isPrefixOf (lowerL (stripProluofireImPfx l)) = false := by
              simp only [Bool.not_eq_true] at hg
              exact hg
            have hah' : headIsAtHash (stripProluofireImPfx l) = false := by
              simp only [Bool.not_eq_true] at hah
              exact hah
            have hnum' : isNumericL (stripProluofireImPfx l) = false := by
              simp only [Bool.not_eq_true] at hnum
              exact hnum
            rw [targetL_default hne hu' hg' hah' hnum']
            exact ⟨trimFixed_strip l, hu', hg', hah', hnum', hne⟩

/-- Claim C7 (amended): `normalizeTarget` is idempotent on every input whose
normalized form does not itself start (case-insensitively) with the channel
tag `proluofire-im:`; the prefix-stripping regex removes only one tag copy,
so inputs that stack the tag twice escape this hypothesis (see the
counterexample). -/
theorem C7_normalize_idempotent_amended (s : String)
    (h : chanTag.isPrefixOf (lowerL (normalizeTarget s).data) = false) :
    normalizeTarget (normalizeTarget s) = normalizeTarget s := by
  have key : normalizeTargetL (normalizeTargetL s.data) = normalizeTargetL s.data := by
    have h' : chanTag.isPrefixOf (lowerL (normalizeTargetL s.data)) = false := h
    rcases normalizeTargetL_shape s.data with h0 | ⟨hh, htrim⟩ | ⟨htrim, hu, hg, hah, hnum, hne⟩
    · rw [h0]
      rfl
    · exact normalizeTargetL_fixed_atHash htrim hh
    · exact normalizeTargetL_fixed_default htrim h' hu hg hah hnum hne
  exact congrArg String.mk key

/-- Claim C8 (amended): after stripping the channel tag and trimming, an
input prefixed with `@`/`#` is returned unchanged (tail case preserved, not
lower-cased); an all-digit input is returned as `#` followed by the digits;
every remaining input (no `user:`/`group:` tag) is returned unchanged — the
final branch performs no lower-casing. -/
theorem C8_normalize_branches_amended (s : String) :
    (headIsAtHash (stripProluofireImPfx s.data) = true →
      normalizeTarget s = ⟨stripProluofireImPfx s.data⟩) ∧
    (isNumericL (stripProluofireImPfx s.data) = true →
      normalizeTarget s = ⟨'#' :: stripProluofireImPfx s.data⟩) ∧
    (stripProluofireImPfx s.data ≠ [] →
      userTag.isPrefixOf (lowerL (stripProluofireImPfx s.data)) = false →
      groupTag.isPrefixOf (lowerL (stripProluofireImPfx s.data)) = false →
      headIsAtHash (stripProluofireImPfx s.data) = false →
      isNumericL (stripProluofireImPfx s.data) = false →
      normalizeTarget s = ⟨stripProluofireImPfx s.data⟩) := by
  refine ⟨fun hh => ?_, fun hnum => ?_, fun hne hu hg hah hnum => ?_⟩
  · exact congrArg String.mk (targetL_atHash hh)
  · exact congrArg String.mk (targetL_numeric hnum)
  · exact congrArg String.mk (targetL_default hne hu hg hah hnum)

/-- Claim C7 counterexample: stacking the channel tag breaks idempotence —
`normalizeTarget "proluofire-im:proluofire-im:x"` is `"proluofire-im:x"`,
which normalizes again to `"x"`. -/
theorem C7_normalize_idempotent_counterexample :
    normalizeTarget (normalizeTarget "proluofire-im:proluofire-im:x") ≠
      normalizeTarget "proluofire-im:proluofire-im:x" := by
  decide

/-- Claim C7 (amended) witness at `"user:ABC"`, whose normal form `"@abc"`
does not start with the channel tag. -/
theorem C7_normalize_idempotent_amended_witness :
    normalizeTarget (normalizeTarget "user:ABC") = normalizeTarget "user:ABC" :=
  C7_normalize_idempotent_amended "user:ABC" (by decide)

/-- Claim C8 counterexample: the `@`/`#` branch and the default branch return
their input unchanged, not lower-cased — `normalizeTarget "@ABC"` is `"@ABC"`,
not `"@abc"`, and `normalizeTarget "Hello"` is `"Hello"`, not `"hello"`. -/
theorem C8_normalize_branches_counterexample :
    normalizeTarget "@ABC" = "@ABC" ∧ normalizeTarget "@ABC" ≠ "@abc" ∧
    normalizeTarget "Hello" = "Hello" ∧ normalizeTarget "Hello" ≠ "hello" := by
  refine ⟨rfl, by decide, rfl, by decide⟩

/-- Claim C8 (amended) witness: the all-digit branch at `"123"`. -/
theorem C8_normalize_branches_amended_witness :
    normalizeTarget "123" = ⟨'#' :: stripProluofireImPfx "123".data⟩ :=
  (C8_normalize_branches_amended "123").2.1 (by decide)

/-- Claim C6: the authentication completeness check accepts exactly a
non-blank `apiKey` or a non-blank `username`+`password` pair, and each
invalid combination gets its own distinct descriptive error message. -/
theorem C6_auth_completeness (a u p : Option String) :
    ((validateAuthConfig a u p).valid = true ↔
      (nonBlank a = true ∨ (nonBlank u = true ∧ nonBlank p = true))) ∧
    (nonBlank a = false → nonBlank u = false → nonBlank p = false →
      (validateAuthConfig a u p).error =
        some "Authentication required: provide apiKey or username+password") ∧
    (nonBlank a = false → nonBlank u = true → nonBlank p = false →
      (validateAuthConfig a u p).error =
        some "Password required when username is provided") ∧
    (nonBlank a = false → nonBlank u = false → nonBlank p = true →
      (validateAuthConfig a u p).error =
        some "Username required when password is provided") ∧
    (("Authentication required: provide apiKey or username+password" : String) ≠
        "Password required when username is provided" ∧
      ("Authentication required: provide apiKey or username+password" : String) ≠
        "Username required when password is provided" ∧
      ("Password required when username is provided" : String) ≠
        "Username required when password is provided") := by
  cases ha : nonBlank a <;> cases hu : nonBlank u <;> cases hp : nonBlank p <;>
    simp [validateAuthConfig, ha, hu, hp]

/-- Claim C6 witness: a username without a password is an explicit error. -/
theorem C6_auth_completeness_witness :
    (validateAuthConfig none (some "alice") none).error =
      some "Password required when username is provided" :=
  (C6_auth_completeness none (some "alice") none).2.2.1 rfl rfl rfl

/-- Claim C9: the reconnect delay for attempt `n` is
`min(1000 * 1.7^(n-1), 15000)` (in exact arithmetic), is monotone in the
attempt number, and never exceeds 15000 ms. -/
theorem C9_reconnect_backoff (n m : Nat) (h1 : 1 ≤ n) (h2 : n ≤ m) :
    scheduleReconnectDelay n = min (1000 * (17 / 10 : ℚ) ^ (n - 1)) 15000 ∧
    scheduleReconnectDelay n ≤ scheduleReconnectDelay m ∧
    scheduleReconnectDelay n ≤ 15000 := by
  refine ⟨rfl, ?_, min_le_right _ _⟩
  unfold scheduleReconnectDelay WS_RECONNECT_BASE_MS WS_RECONNECT_MAX_MS
  apply min_le_min _ le_rfl
  apply mul_le_mul_of_nonneg_left _ (by norm_num)
  exact pow_le_pow_right₀ (by norm_num) (Nat.sub_le_sub_right h2 1)

/-- Claim C9 witness: attempts 3 and 7. -/
theorem C9_reconnect_backoff_witness :
    scheduleReconnectDelay 3 ≤ scheduleReconnectDelay 7 ∧
    scheduleReconnectDelay 3 ≤ 15000 := by
  have h := C9_reconnect_backoff 3 7 (by norm_num) (by norm_num)
  exact ⟨h.2.1, h.2.2⟩

/-- Claim C1: an inbound DM under `dmPolicy = pairing` from a sender outside
the effective allow-list is dropped; exactly one pairing reply is attempted,
namely on the message whose upsert reports the request as newly created; the
second message from the same still-unlisted sender attempts no further
reply; and a pairing-reply send failure is only logged, never propagated. -/
theorem C1_dm_pairing_single_reply (ft tt gid sender : String)
    (eff gAF : List String) (gp : GroupPolicy) (roomId : Option String)
    (store : List String) (sf1 sf2 : Bool)
    (hsender : isAllowedSender eff sender = false)
    (hstore : store.contains sender = false) :
    (dmPairingTwice ⟨ft, tt, sender, gid, false⟩ ⟨.pairing, gp, eff, gAF⟩
        roomId store sf1 sf2).1.allowed = false ∧
    (dmPairingTwice ⟨ft, tt, sender, gid, false⟩ ⟨.pairing, gp, eff, gAF⟩
        roomId store sf1 sf2).1.pairingReplyAttempts = 1 ∧
    (dmPairingTwice ⟨ft, tt, sender, gid, false⟩ ⟨.pairing, gp, eff, gAF⟩
        roomId store sf1 sf2).2.1.allowed = false ∧
    (dmPairingTwice ⟨ft, tt, sender, gid, false⟩ ⟨.pairing, gp, eff, gAF⟩
        roomId store sf1 sf2).2.1.pairingReplyAttempts = 0 ∧
    (dmPairingTwice ⟨ft, tt, sender, gid, false⟩ ⟨.pairing, gp, eff, gAF⟩
        roomId store sf1 sf2).1.sendErrorLogged = sf1 ∧
    (dmPairingTwice ⟨ft, tt, sender, gid, false⟩ ⟨.pairing, gp, eff, gAF⟩
        roomId store sf1 sf2).1.errorPropagated = false ∧
    (dmPairingTwice ⟨ft, tt, sender, gid, false⟩ ⟨.pairing, gp, eff, gAF⟩
        roomId store sf1 sf2).2.1.errorPropagated = false := by
  have hstore' : sender ∉ store := by simpa using hstore
  simp [dmPairingTwice, upsertPairingRequest, validateDmAccess, hsender, hstore']

/-- Claim C1 witness: sender `bob`, allow-list `@alice`, empty pairing store,
failing pairing-reply send on the first message. -/
theorem C1_dm_pairing_single_reply_witness :
    (dmPairingTwice ⟨"", "", "bob", "", false⟩
        ⟨.pairing, .allowlist, ["alice"], []⟩ (some "14") [] true false).1.allowed =
      false ∧
    (dmPairingTwice ⟨"", "", "bob", "", false⟩
        ⟨.pairing, .allowlist, ["alice"], []⟩ (some "14") [] true
        false).1.pairingReplyAttempts = 1 := by
  have h := C1_dm_pairing_single_reply "" "" "" "bob" ["alice"] [] .allowlist
    (some "14") [] true false (by decide) (by decide)
  exact ⟨h.1, h.2.1⟩

/-- Claim C2 counterexample: the wildcard entry's user list is never
consulted by `validateGroupAccess` — with `groups = {"*": {users:
["alice"]}}`, `groupPolicy = allowlist` and empty effective group
allow-list, sender `bob` (not in the list, which has no `*`) is admitted to
`#g1`, while the claim says the sender must be in the wildcard's list. -/
theorem C2_group_userlist_counterexample :
    (validateGroupAccess ⟨"", "#g1", "bob", "g1", true⟩
        (resolveMessagePolicies none (some .allowlist) none none none [])
        [("*", ⟨some ["alice"], none⟩)]).allowed = true ∧
    isAllowedSender (normalizeAllowlist (some ["alice"])) "bob" = false ∧
    (resolveMessagePolicies none (some .allowlist) none none none
        []).effectiveGroupAllowFrom = [] := by
  decide

/-- Claim C2 (amended): for a group message that passed group admission,
(1) the sender is admitted iff — when the *matched entry itself* lists
users — the sender is in that list or it contains `*` (the wildcard entry's
user list is never consulted), and otherwise iff the effective group
allow-list is empty or lists the sender/`*`; (2) when neither the group
allow-list nor the DM allow-list fallback nor the pairing store supplies
entries, the sender is admitted by default. -/
theorem C2_group_sender_admission_amended :
    (∀ (groups : List (String × GroupEntry)) (gp : GroupPolicy) (dmp : DmPolicy)
        (eff gAF : List String) (ft tt sender gid : String),
      gp ≠ .disabled →
      (gp = .openPolicy ∨ (resolveGroupMatch groups tt gp).allowed = true) →
      ((validateGroupAccess ⟨ft, tt, sender, gid, true⟩ ⟨dmp, gp, eff, gAF⟩
          groups).allowed = true ↔
        (if normalizeAllowlist ((resolveGroupMatch groups tt gp).entry.bind (·.users)) = []
         then (gAF = [] ∨ isAllowedSender gAF sender = true)
         else isAllowedSender
           (normalizeAllowlist ((resolveGroupMatch groups tt gp).entry.bind (·.users)))
           sender = true))) ∧
    (∀ (dmp : Option DmPolicy) (gpc dgp : Option GroupPolicy)
        (aCfg gACfg : Option (List String)) (groups : List (String × GroupEntry))
        (ft tt sender gid : String),
      normalizeAllowlist aCfg = [] → normalizeAllowlist gACfg = [] →
      (resolveMessagePolicies dmp gpc dgp aCfg gACfg []).groupPolicy ≠ .disabled →
      ((resolveMessagePolicies dmp gpc dgp aCfg gACfg []).groupPolicy = .openPolicy ∨
        (resolveGroupMatch groups tt
          (resolveMessagePolicies dmp gpc dgp aCfg gACfg []).groupPolicy).allowed = true) →
      normalizeAllowlist ((resolveGroupMatch groups tt
          (resolveMessagePolicies dmp gpc dgp aCfg gACfg []).groupPolicy).entry.bind
          (·.users)) = [] →
      (validateGroupAccess ⟨ft, tt, sender, gid, true⟩
          (resolveMessagePolicies dmp gpc dgp aCfg gACfg []) groups).allowed = true) := by
  have partA : ∀ (groups : List (String × GroupEntry)) (gp : GroupPolicy) (dmp : DmPolicy)
      (eff gAF : List String) (ft tt sender gid : String),
      gp ≠ .disabled →
      (gp = .openPolicy ∨ (resolveGroupMatch groups tt gp).allowed = true) →
      ((validateGroupAccess ⟨ft, tt, sender, gid, true⟩ ⟨dmp, gp, eff, gAF⟩
          groups).allowed = true ↔
        (if normalizeAllowlist ((resolveGroupMatch groups tt gp).entry.bind (·.users)) = []
         then (gAF = [] ∨ isAllowedSender gAF sender = true)
         else isAllowedSender
           (normalizeAllowlist ((resolveGroupMatch groups tt gp).entry.bind (·.users)))
           sender = true)) := by
    intro groups gp dmp eff gAF ft tt sender gid h1 h2
    unfold validateGroupAccess
    dsimp only
    rw [if_neg (by simp), if_neg h1, if_neg (by
      rcases h2 with h2 | h2
      · exact fun hc => hc.1 h2
      · exact fun hc => by rw [h2] at hc; exact absurd hc.2 (by simp))]
    set gu := normalizeAllowlist ((resolveGroupMatch groups tt gp).entry.bind (·.users))
      with hgu
    by_cases hge : gu = []
    · rw [if_pos hge, hge]
      simp
      by_cases hp : gAF = [] ∨ isAllowedSender gAF sender = true <;> simp [hp]
    · rw [if_neg hge]
      have hlen : 0 < gu.length := List.length_pos.2 hge
      rw [if_pos hlen]
      have hne : gu.isEmpty = false := by
        simpa using hge
      rw [hne]
      by_cases hs : isAllowedSender gu sender = true <;> simp [hs]
  refine ⟨partA, ?_⟩
  intro dmp gpc dgp aCfg gACfg groups ft tt sender gid ha hga h1 h2 hgu
  have hgaf : (resolveMessagePolicies dmp gpc dgp aCfg gACfg []).effectiveGroupAllowFrom
      = [] := by
    unfold resolveMessagePolicies
    dsimp only
    rw [ha, hga]
    simp [normalizeAllowlist]
  have hA := partA groups (resolveMessagePolicies dmp gpc dgp aCfg gACfg []).groupPolicy
    (resolveMessagePolicies dmp gpc dgp aCfg gACfg []).dmPolicy
    (resolveMessagePolicies dmp gpc dgp aCfg gACfg []).effectiveAllowFrom
    (resolveMessagePolicies dmp gpc dgp aCfg gACfg []).effectiveGroupAllowFrom
    ft tt sender gid h1 h2
  exact hA.2 (by rw [if_pos hgu]; exact Or.inl hgaf)

/-- Claim C2 (amended) witness: group `#g1` with an entry listing only
`alice` rejects `bob`. -/
theorem C2_group_sender_admission_amended_witness :
    (validateGroupAccess ⟨"", "#g1", "bob", "g1", true⟩
        ⟨.pairing, .allowlist, [], []⟩ [("#g1", ⟨some ["alice"], none⟩)]).allowed
      = true ↔ False := by
  have h := C2_group_sender_admission_amended.1 [("#g1", ⟨some ["alice"], none⟩)]
    .allowlist .pairing [] [] "" "#g1" "bob" "g1" (by decide) (by decide)
  rw [h]
  simp only [iff_false]
  decide

lemma sendMessage_ok {target : String} {t c r : Nat} (ht : t < r)
    (hc : c < RATE_LIMIT_MAX_MESSAGES) :
    sendMessageProluofireIm target t (some ⟨c, r⟩) = (.ok (), some ⟨c + 1, r⟩) := by
  simp [sendMessageProluofireIm, checkRateLimit, updateRateLimit,
    Nat.not_le.2 ht, Nat.not_le.2 hc]

lemma runSends_ok (target : String) (ts : List Nat) (c r : Nat)
    (hts : ∀ t ∈ ts, t < r) (hc : c + ts.length ≤ RATE_LIMIT_MAX_MESSAGES) :
    runSends target ts (some ⟨c, r⟩) =
      (List.replicate ts.length (.ok ()), some ⟨c + ts.length, r⟩) := by
  induction ts generalizing c with
  | nil => simp [runSends]
  | cons t ts ih =>
    have ht : t < r := hts t (by simp)
    have hcc : c < RATE_LIMIT_MAX_MESSAGES := by
      simp at hc
      omega
    have hstep := @sendMessage_ok target t c r ht hcc
    have hrest := ih (c + 1) (fun x hx => hts x (by simp [hx])) (by simp at hc ⊢; omega)
    simp [runSends, hstep, hrest, List.replicate_succ]
    omega

/-- Claim C3: from an empty rate-limit state, a first send at `t0` and 19
further sends inside the 60-second window all succeed, the counter reaching
20 one increment per completed send; a 21st send inside the window is
rejected without change to the entry, with an error containing
`Rate limit exceeded` and `Try again in Ns` (N the rounded-up wait in
seconds); the first send at or after `resetAt` succeeds with a fresh
counter. -/
theorem C3_rate_limit_window (target : String) (t0 : Nat) (ts : List Nat) (t21 t22 : Nat)
    (hlen : ts.length = 19)
    (hts : ∀ t ∈ ts, t < t0 + RATE_LIMIT_WINDOW_MS)
    (h21 : t21 < t0 + RATE_LIMIT_WINDOW_MS)
    (h22 : t0 + RATE_LIMIT_WINDOW_MS ≤ t22) :
    sendMessageProluofireIm target t0 none =
      (.ok (), some ⟨1, t0 + RATE_LIMIT_WINDOW_MS⟩) ∧
    runSends target ts (some ⟨1, t0 + RATE_LIMIT_WINDOW_MS⟩) =
      (List.replicate 19 (.ok ()), some ⟨20, t0 + RATE_LIMIT_WINDOW_MS⟩) ∧
    (sendMessageProluofireIm target t21 (some ⟨20, t0 + RATE_LIMIT_WINDOW_MS⟩)).2 =
      some ⟨20, t0 + RATE_LIMIT_WINDOW_MS⟩ ∧
    (∃ msg, (sendMessageProluofireIm target t21
          (some ⟨20, t0 + RATE_LIMIT_WINDOW_MS⟩)).1 = .error msg ∧
      StrContains msg "Rate limit exceeded" ∧
      StrContains msg ("Try again in " ++
        toString ((t0 + RATE_LIMIT_WINDOW_MS - t21 + 999) / 1000) ++ "s")) ∧
    sendMessageProluofireIm target t22 (some ⟨20, t0 + RATE_LIMIT_WINDOW_MS⟩) =
      (.ok (), some ⟨1, t22 + RATE_LIMIT_WINDOW_MS⟩) := by
  have herr : checkRateLimit (normalizeTarget target) t21
      (some ⟨20, t0 + RATE_LIMIT_WINDOW_MS⟩) =
      .error ("Rate limit exceeded for " ++ normalizeTarget target ++
        ". Try again in " ++
        toString ((t0 + RATE_LIMIT_WINDOW_MS - t21 + 999) / 1000) ++ "s") := by
    simp [checkRateLimit, Nat.not_le.2 h21, RATE_LIMIT_MAX_MESSAGES]
  refine ⟨?_, ?_, ?_, ?_, ?_⟩
  · simp [sendMessageProluofireIm, checkRateLimit, updateRateLimit]
  · have h := runSends_ok target ts 1 (t0 + RATE_LIMIT_WINDOW_MS) hts
      (by rw [hlen]; decide)
    rw [hlen] at h
    simpa using h
  · simp [sendMessageProluofireIm, herr]
  · refine ⟨"Failed to send message to " ++ target ++ ": " ++
      ("Rate limit exceeded for " ++ normalizeTarget target ++ ". Try again in " ++
        toString ((t0 + RATE_LIMIT_WINDOW_MS - t21 + 999) / 1000) ++ "s"), ?_, ?_, ?_⟩
    · simp [sendMessageProluofireIm, herr]
    · refine ⟨"Failed to send message to " ++ target ++ ": ",
        " for " ++ normalizeTarget target ++ ". Try again in " ++
          toString ((t0 + RATE_LIMIT_WINDOW_MS - t21 + 999) / 1000) ++ "s", ?_⟩
      rw [show ("Rate limit exceeded for " : String) =
        "Rate limit exceeded" ++ " for " from rfl]
      simp only [String.append_assoc]
    · refine ⟨"Failed to send message to " ++ target ++ ": " ++
        "Rate limit exceeded for " ++ normalizeTarget target ++ ". ", "", ?_⟩
      rw [show (". Try again in " : String) = ". " ++ "Try again in " from rfl]
      simp only [String.append_assoc, String.append_empty]
  · simp [sendMessageProluofireIm, checkRateLimit, updateRateLimit, h22]

/-- Claim C3 witness: 20 sends to `#42` at time 0, the 21st at time 0, and a
fresh send at 60000. -/
theorem C3_rate_limit_window_witness :
    sendMessageProluofireIm "#42" 0 none = (.ok (), some ⟨1, 60000⟩) ∧
    runSends "#42" (List.replicate 19 0) (some ⟨1, 60000⟩) =
      (List.replicate 19 (.ok ()), some ⟨20, 60000⟩) ∧
    (sendMessageProluofireIm "#42" 0 (some ⟨20, 60000⟩)).2 = some ⟨20, 60000⟩ ∧
    sendMessageProluofireIm "#42" 60000 (some ⟨20, 60000⟩) =
      (.ok (), some ⟨1, 120000⟩) := by
  have h := C3_rate_limit_window "#42" 0 (List.replicate 19 0) 0 60000
    (by decide) (by decide) (by decide) (by decide)
  exact ⟨h.1, h.2.1, h.2.2.1, h.2.2.2.2⟩

lemma retryAux_all_fail (outcome : Nat → Except String Unit) (f : Nat → String)
    (hout : ∀ n, outcome n = .error (f n))
    (hret : ∀ n, isRetryableError (f n) = true) :
    ∀ (r a : Nat) (le : Option String), 1 ≤ r →
      retryAux outcome a r le =
        ⟨.error (f (a + r - 1)), a + r,
          (List.range (r - 1)).map (fun i => min (1000 * 2 ^ (a + i)) 10000)⟩ := by
  intro r
  induction r with
  | zero => intro a le h; cases h
  | succ r ih =>
    intro a le _
    simp only [retryAux, hout a, hret a, if_true]
    cases r with
    | zero => simp [retryAux]
    | succ r2 =>
      rw [ih (a + 1) (some (f a)) (by omega)]
      simp only [if_neg (Nat.succ_ne_zero r2)]
      simp only [RetryTrace.mk.injEq]
      refine ⟨by rw [show a + 1 + (r2 + 1) - 1 = a + (r2 + 1 + 1) - 1 from by omega],
        by omega, ?_⟩
      rw [show r2 + 1 + 1 - 1 = r2 + 1 from rfl, show r2 + 1 - 1 = r2 from rfl,
        List.range_succ_eq_map, List.map_cons, List.map_map]
      refine congrArg₂ _ (by simp) ?_
      apply List.map_congr_left
      intro i _
      simp only [Function.comp]
      rw [show a + 1 + i = a + (i + 1) from by omega]

/-- Claim C4 (amended): `isRetryableError` is true iff the lower-cased
message contains a transient marker (network/timeout/econnrefused or
502/503/"server error") OR contains neither the rate-limit marker nor a
4xx-style marker (not found/unauthorized/forbidden/invalid) — the transient
check runs first and unclassified errors default to retryable; a failed
attempt with a non-retryable message is thrown immediately without further
attempts; when every attempt fails with a retryable error, the backoff slept
after attempt `n` is `min(1000 * 2^n, 10000)` ms and the last error
propagates after `maxRetries` attempts. -/
theorem C4_retry_classification_amended :
    (∀ msg : String,
      isRetryableError msg = true ↔
        ((strContainsB (jsLower msg) "network" || strContainsB (jsLower msg) "timeout" ||
          strContainsB (jsLower msg) "econnrefused" ||
          strContainsB (jsLower msg) "server error" ||
          strContainsB (jsLower msg) "503" || strContainsB (jsLower msg) "502") = true ∨
         (strContainsB (jsLower msg) "rate limit" = false ∧
          (strContainsB (jsLower msg) "not found" ||
           strContainsB (jsLower msg) "unauthorized" ||
           strContainsB (jsLower msg) "forbidden" ||
           strContainsB (jsLower msg) "invalid") = false))) ∧
    (∀ (outcome : Nat → Except String Unit) (a r : Nat) (le : Option String) (e : String),
      outcome a = .error e → isRetryableError e = false →
      retryAux outcome a (r + 1) le = ⟨.error e, a + 1, []⟩) ∧
    (∀ (outcome : Nat → Except String Unit) (f : Nat → String) (maxRetries : Nat),
      1 ≤ maxRetries → (∀ n, outcome n = .error (f n)) →
      (∀ n, isRetryableError (f n) = true) →
      sendMessageWithRetry outcome maxRetries =
        ⟨.error (f (maxRetries - 1)), maxRetries,
          (List.range (maxRetries - 1)).map (fun n => min (1000 * 2 ^ n) 10000)⟩) := by
  refine ⟨?_, ?_, ?_⟩
  · intro msg
    simp only [isRetryableError]
    generalize strContainsB (jsLower msg) "network" = b1
    generalize strContainsB (jsLower msg) "timeout" = b2
    generalize strContainsB (jsLower msg) "econnrefused" = b3
    generalize strContainsB (jsLower msg) "server error" = b4
    generalize strContainsB (jsLower msg) "503" = b5
    generalize strContainsB (jsLower msg) "502" = b6
    generalize strContainsB (jsLower msg) "rate limit" = b7
    generalize strContainsB (jsLower msg) "not found" = b8
    generalize strContainsB (jsLower msg) "unauthorized" = b9
    generalize strContainsB (jsLower msg) "forbidden" = b10
    generalize strContainsB (jsLower msg) "invalid" = b11
    revert b1 b2 b3 b4 b5 b6 b7 b8 b9 b10 b11
    decide
  · intro outcome a r le e hout hret
    simp only [retryAux, hout, hret]
    simp
  · intro outcome f maxRetries hmax hout hret
    have h := retryAux_all_fail outcome f hout hret maxRetries 0 none hmax
    rw [sendMessageWithRetry, h]
    simp

/-- Claim C4 counterexample: an error message matching no marker at all is
retried (all three attempts are consumed), refuting "retries iff the message
contains a transient marker". -/
theorem C4_retry_classification_counterexample :
    (sendMessageWithRetry (fun _ => .error "mysterious failure") 3).attemptsMade = 3 ∧
    strContainsB (jsLower "mysterious failure") "network" = false ∧
    strContainsB (jsLower "mysterious failure") "timeout" = false ∧
    strContainsB (jsLower "mysterious failure") "econnrefused" = false ∧
    strContainsB (jsLower "mysterious failure") "server error" = false ∧
    strContainsB (jsLower "mysterious failure") "503" = false ∧
    strContainsB (jsLower "mysterious failure") "502" = false := by
  refine ⟨rfl, ?_, ?_, ?_, ?_, ?_, ?_⟩ <;> decide

/-- Claim C4 (amended) witness: a 4xx-style error is thrown on the first
attempt without retry. -/
theorem C4_retry_classification_amended_witness :
    retryAux (fun _ => .error "invalid target") 0 3 none =
      ⟨.error "invalid target", 1, []⟩ :=
  C4_retry_classification_amended.2.1 (fun _ => .error "invalid target") 0 2 none
    "invalid target" rfl (by decide)

lemma sumBytes_cons (c : String) (rest : List String) :
    sumBytes (c :: rest) = c.utf8ByteSize + sumBytes rest := by
  simp [sumBytes]

lemma readJsonBodyAux_complete (parse : String → Option Json) (maxBytes : Nat) :
    ∀ (chunks : List String) (total : Nat) (raw : String) (k : Nat),
      total + sumBytes chunks ≤ maxBytes →
      readJsonBodyAux parse maxBytes chunks total raw k =
        (if jsTrim (raw ++ concatChunks chunks) = "" then .emptyBody
         else
           match parse (raw ++ concatChunks chunks) with
           | some v => .ok v
           | none => .badJson) := by
  intro chunks
  induction chunks with
  | nil =>
    intro total raw k hle
    simp [readJsonBodyAux, concatChunks]
  | cons c rest ih =>
    intro total raw k hle
    rw [sumBytes_cons] at hle
    have hnot : ¬(maxBytes < total + c.utf8ByteSize) := by omega
    rw [readJsonBodyAux, if_neg hnot, ih (total + c.utf8ByteSize) (raw ++ c) (k + 1)
      (by omega)]
    rw [concatChunks, ← String.append_assoc]

lemma readJsonBodyAux_tooLarge (parse : String → Option Json) (maxBytes : Nat) :
    ∀ (chunks : List String) (total : Nat) (raw : String) (k : Nat),
      total ≤ maxBytes → maxBytes < total + sumBytes chunks →
      ∃ j, readJsonBodyAux parse maxBytes chunks total raw k = .tooLarge (k + j) ∧
        1 ≤ j ∧ j ≤ chunks.length := by
  intro chunks
  induction chunks with
  | nil =>
    intro total raw k h1 h2
    rw [show sumBytes [] = 0 from rfl] at h2
    omega
  | cons c rest ih =>
    intro total raw k h1 h2
    rw [sumBytes_cons] at h2
    by_cases hc : maxBytes < total + c.utf8ByteSize
    · exact ⟨1, by rw [readJsonBodyAux, if_pos hc], by omega, by simp⟩
    · obtain ⟨j, hj1, hj2, hj3⟩ := ih (total + c.utf8ByteSize) (raw ++ c) (k + 1)
        (by omega) (by omega)
      refine ⟨j + 1, ?_, by omega, by simp; omega⟩
      rw [readJsonBodyAux, if_neg hc, hj1]
      congr 1
      omega

/-- Claim C5: on a registered path, a non-POST request gets 405 with
`Allow: POST`; a body over the 1 MiB cap aborts the chunk loop (`tooLarge`
after at most the offending chunk), destroys the connection and yields 413;
an empty or unparseable body yields 400; an unregistered path is "not
handled" — no response is written and nothing is thrown (the handler is a
total function); and an account hint matching no registration on the path
yields 404. -/
theorem C5_webhook_contract :
    (∀ (regs : List (String × List String)) (parse : String → Option Json)
        (method rawPath : String) (qget hget : String → Option String)
        (chunks : List String),
      (regs.lookup (normalizeWebhookPath rawPath) = none ∨
        regs.lookup (normalizeWebhookPath rawPath) = some []) →
      handleProluofireImWebhookRequest regs parse method rawPath qget hget chunks =
        .notHandled) ∧
    (∀ regs parse method rawPath qget hget chunks targets,
      regs.lookup (normalizeWebhookPath rawPath) = some targets → targets ≠ [] →
      method ≠ "POST" →
      handleProluofireImWebhookRequest regs parse method rawPath qget hget chunks =
        .handled ⟨405, true, "Method Not Allowed", false⟩) ∧
    (∀ regs parse rawPath qget hget chunks targets,
      regs.lookup (normalizeWebhookPath rawPath) = some targets → targets ≠ [] →
      WEBHOOK_MAX_BYTES < sumBytes chunks →
      ∃ k, readJsonBody parse chunks WEBHOOK_MAX_BYTES = .tooLarge k ∧
        1 ≤ k ∧ k ≤ chunks.length ∧
        handleProluofireImWebhookRequest regs parse "POST" rawPath qget hget chunks =
          .handled ⟨413, false, "payload too large", true⟩) ∧
    (∀ regs parse rawPath qget hget chunks targets,
      regs.lookup (normalizeWebhookPath rawPath) = some targets → targets ≠ [] →
      sumBytes chunks ≤ WEBHOOK_MAX_BYTES →
      (jsTrim (concatChunks chunks) = "" ∨ parse (concatChunks chunks) = none) →
      ∃ b, handleProluofireImWebhookRequest regs parse "POST" rawPath qget hget chunks =
        .handled ⟨400, false, b, false⟩) ∧
    (∀ regs parse rawPath qget hget chunks targets payload,
      regs.lookup (normalizeWebhookPath rawPath) = some targets → targets ≠ [] →
      sumBytes chunks ≤ WEBHOOK_MAX_BYTES →
      jsTrim (concatChunks chunks) ≠ "" →
      parse (concatChunks chunks) = some payload →
      readAccountHint qget hget payload ≠ "" →
      targets.filter (fun a => jsLower a == jsLower (readAccountHint qget hget payload)) =
        [] →
      handleProluofireImWebhookRequest regs parse "POST" rawPath qget hget chunks =
        .handled ⟨404, false, "unknown account", false⟩) := by
  have hempty : ∀ (l : List String), l ≠ [] → l.isEmpty = false := by
    intro l hl
    simpa using hl
  refine ⟨?_, ?_, ?_, ?_, ?_⟩
  · intro regs parse method rawPath qget hget chunks h
    rcases h with h | h <;> simp [handleProluofireImWebhookRequest, h]
  · intro regs parse method rawPath qget hget chunks targets h ht hm
    simp [handleProluofireImWebhookRequest, h, hempty targets ht, hm]
  · intro regs parse rawPath qget hget chunks targets h ht hsize
    obtain ⟨j, hj1, hj2, hj3⟩ := readJsonBodyAux_tooLarge parse WEBHOOK_MAX_BYTES
      chunks 0 "" 0 (by omega) (by omega)
    refine ⟨j, by rw [readJsonBody]; rw [hj1]; congr 1; omega, hj2, hj3, ?_⟩
    simp [handleProluofireImWebhookRequest, h, hempty targets ht, readJsonBody, hj1]
  · intro regs parse rawPath qget hget chunks targets h ht hsize hbody
    have hread := readJsonBodyAux_complete parse WEBHOOK_MAX_BYTES chunks 0 "" 0
      (by omega)
    rw [show ("" : String) ++ concatChunks chunks = concatChunks chunks from by
      simp] at hread
    rcases hbody with hb | hb
    · refine ⟨"empty payload", ?_⟩
      rw [if_pos hb] at hread
      simp [handleProluofireImWebhookRequest, h, hempty targets ht, readJsonBody, hread]
    · by_cases he : jsTrim (concatChunks chunks) = ""
      · refine ⟨"empty payload", ?_⟩
        rw [if_pos he] at hread
        simp [handleProluofireImWebhookRequest, h, hempty targets ht, readJsonBody, hread]
      · refine ⟨"invalid json", ?_⟩
        rw [if_neg he, hb] at hread
        simp [handleProluofireImWebhookRequest, h, hempty targets ht, readJsonBody, hread]
  · intro regs parse rawPath qget hget chunks targets payload h ht hsize he hp hhint hfilter
    have hread := readJsonBodyAux_complete parse WEBHOOK_MAX_BYTES chunks 0 "" 0
      (by omega)
    rw [show ("" : String) ++ concatChunks chunks = concatChunks chunks from by
      simp] at hread
    rw [if_neg he, hp] at hread
    simp [handleProluofireImWebhookRequest, h, hempty targets ht, readJsonBody, hread,
      hhint, hfilter]

/-- Claim C5 witness: `GET` on the registered default path returns 405. -/
theorem C5_webhook_contract_witness :
    handleProluofireImWebhookRequest [("/webhook/proluofire-im", ["default"])]
      (fun _ => none) "GET" "/webhook/proluofire-im" (fun _ => none) (fun _ => none)
      [] = .handled ⟨405, true, "Method Not Allowed", false⟩ :=
  C5_webhook_contract.2.1 [("/webhook/proluofire-im", ["default"])] (fun _ => none)
    "GET" "/webhook/proluofire-im" (fun _ => none) (fun _ => none) [] ["default"]
    (by decide) (by decide) (by decide)

/-- Claim C10: `parseInboundMessage` is embedded as a total function (no
JSON value makes it throw), and whenever it returns a message: the `to`
field is `""`, so `identifyMessageParticipants` classifies it as a direct
message (`isGroup = false`); the content is non-blank; and the message
carries the payload's non-empty `roomId` and `userId` (the `from` field is
`user:<userId>`) — equivalently, blank content or a missing/empty
`roomId`/`userId` yields `none`. -/
theorem C10_parse_inbound_dm_only (dateParse : String → Option Int) (now : Int) (payload : Json)
    (m : ProluofireImMessage)
    (h : parseInboundMessage dateParse now payload = some m) :
    m.toU = "" ∧
    (identifyMessageParticipants m).isGroup = false ∧
    jsTrim m.content ≠ "" ∧
    (∃ r, m.roomId = some r ∧ r ≠ "") ∧
    (∃ u, u ≠ "" ∧ m.fromU = "user:" ++ u) := by
  unfold parseInboundMessage at h
  split at h
  · cases h
  · split at h
    · cases h
    · split at h
      · cases h
      · split at h
        · cases h
        · split at h
          · cases h
          · split at h
            · cases h
            · split at h
              · cases h
              · next hcontent hroom =>
                injection h with h
                subst h
                push_neg at hroom
                refine ⟨rfl, rfl, hcontent, ⟨pimRoomId payload, rfl, hroom.1⟩,
                  ⟨pimUserId payload, hroom.2, rfl⟩⟩

/-- Claim C10 witness: a typical `ImMessageEvent` push payload parses to a
message with empty `to` that the policy engine treats as a DM. -/
theorem C10_parse_inbound_dm_only_witness :
    (identifyMessageParticipants
      { id := "ws_0", fromU := "user:6", toU := "", content := "hi",
        timestamp := 0, roomId := some "14", threadId := none,
        replyToId := none, selfUid := none }).isGroup = false ∧
    jsTrim ("hi" : String) ≠ "" :=
  ⟨(C10_parse_inbound_dm_only (fun _ => none) 0
      (Json.obj [("eventType", Json.str "ImMessageEvent"),
        ("payload", Json.obj [("content", Json.str "hi"),
          ("roomId", Json.num 14), ("userId", Json.num 6)])])
      { id := "ws_0", fromU := "user:6", toU := "", content := "hi",
        timestamp := 0, roomId := some "14", threadId := none,
        replyToId := none, selfUid := none } rfl).2.1,
   (C10_parse_inbound_dm_only (fun _ => none) 0
      (Json.obj [("eventType", Json.str "ImMessageEvent"),
        ("payload", Json.obj [("content", Json.str "hi"),
          ("roomId", Json.num 14), ("userId", Json.num 6)])])
      { id := "ws_0", fromU := "user:6", toU := "", content := "hi",
        timestamp := 0, roomId := some "14", threadId := none,
        replyToId := none, selfUid := none } rfl).2.2.1⟩
